import Mathlib

/-! # Split allocator of the splitwise-clone repository

Shallow embedding of the expense/credit split logic found in
`src/app/groups/[groupId]/expenses/add/page.tsx` (function `handleSubmit`) and
`src/app/groups/[groupId]/credits/add/page.tsx` (function `handleSubmit`).

Monetary values are modelled as rationals and integer cent counts as `Int`.
The JavaScript primitives the code relies on (`Math.round`, `Math.floor`,
`parseFloat`) are modelled explicitly below, idealising IEEE-754 doubles as
exact rationals. -/

namespace Splitwise

/-- JavaScript `Math.round x` rounds half toward positive infinity: `⌊x + 1/2⌋`. -/
def jsRound (q : ℚ) : ℤ := ⌊q + 1 / 2⌋

/-- Numeric value of a list of decimal digit characters, most significant first. -/
def natOfDigits (ds : List Char) : ℕ :=
  ds.foldl (fun n c => 10 * n + (c.toNat - 48)) 0

/-- Split a character list into its leading run of decimal digits and the rest. -/
def takeDigits (cs : List Char) : List Char × List Char :=
  (cs.takeWhile Char.isDigit, cs.dropWhile Char.isDigit)

/-- Model of JavaScript `parseFloat` on a whitespace-stripped character list:
parse the longest prefix of shape `[+-]? digits [. digits]? [(e|E) [+-]? digits]?`
(also accepting a leading `.digits`), ignore any trailing garbage, and return
`none` when no digit is consumed (JavaScript `NaN`).  The `Infinity` literal is
not modelled; no input in this development uses it. -/
def jsParseFloatCore (cs : List Char) : Option ℚ :=
  let sign : ℚ × List Char :=
    match cs with
    | '-' :: rest => (-1, rest)
    | '+' :: rest => (1, rest)
    | _ => (1, cs)
  let intPart := takeDigits sign.2
  let fracPart :=
    match intPart.2 with
    | '.' :: rest => takeDigits rest
    | _ => ([], intPart.2)
  if intPart.1 = [] ∧ fracPart.1 = [] then none
  else
    let mantissa : ℚ :=
      (natOfDigits intPart.1 : ℚ) + (natOfDigits fracPart.1 : ℚ) / (10 ^ fracPart.1.length)
    let expDigits : List Char × Bool :=
      match fracPart.2 with
      | 'e' :: '-' :: rest => ((takeDigits rest).1, true)
      | 'E' :: '-' :: rest => ((takeDigits rest).1, true)
      | 'e' :: '+' :: rest => ((takeDigits rest).1, false)
      | 'E' :: '+' :: rest => ((takeDigits rest).1, false)
      | 'e' :: rest => ((takeDigits rest).1, false)
      | 'E' :: rest => ((takeDigits rest).1, false)
      | _ => ([], false)
    let expVal : ℤ :=
      if expDigits.1 = [] then 0
      else if expDigits.2 then -(natOfDigits expDigits.1 : ℤ)
      else (natOfDigits expDigits.1 : ℤ)
    some (sign.1 * mantissa * (10 : ℚ) ^ expVal)

/-- JavaScript `parseFloat` on a string (leading whitespace skipped). -/
def jsParseFloat (s : String) : Option ℚ :=
  jsParseFloatCore (s.data.dropWhile Char.isWhitespace)

/-- Model of JavaScript `String.prototype.trim`: strip whitespace from both
ends. -/
def jsTrim (s : String) : String :=
  String.mk (((s.data.dropWhile Char.isWhitespace).reverse.dropWhile
    Char.isWhitespace).reverse)

/-- Model of JavaScript `String.prototype.split` with a single-character
separator: `splitOnChar c cs` cuts `cs` at every occurrence of `c`. -/
def splitOnChar (c : Char) : List Char → List (List Char)
  | [] => [[]]
  | a :: rest =>
    let r := splitOnChar c rest
    if a = c then [] :: r
    else
      match r with
      | h :: t => (a :: h) :: t
      | [] => [[a]]

/-- One row pushed into the `splits` array: `{ user_id, amount }`
(`amount` is the rational value `shareCents / 100` the code stores). -/
structure SplitRow where
  user_id : String
  amount : ℚ
  deriving DecidableEq, Repr

instance : Inhabited SplitRow := ⟨⟨"", 0⟩⟩

/-- Error message of expenses page line 233 (`InvalidShare` in the spec). -/
def invalidShareMsg : String := "Custom amounts must be non-negative numbers."

/-- Error message of expenses page line 247 (`TotalMismatch` in the spec). -/
def totalMismatchMsg : String := "Custom amounts must add up exactly to the total amount."

/-- Error message of expenses page line 252 (`EmptyCustomSet` in the spec). -/
def emptyCustomMsg : String := "Please enter at least one custom amount."

/-- Error message of expenses page line 208 (`NoParticipants` in the spec). -/
def noMembersMsg : String := "No members available to split this expense."

/-- Error message of expenses page line 196. -/
def selectMemberMsg : String := "Please select at least one member to split between."

/-- Error message of credits page line 171 (`SameParticipant` in the spec). -/
def samePersonMsg : String := "Paid by and Paid to cannot be the same person."

/-- Error message of credits page line 166. -/
def selectBothMsg : String := "Please select both who paid and who received."

/-- Amount validation of expenses page lines 171-181 (identical on the credits
page, lines 153-163): `parseFloat(amount)` must not be `NaN` and must be
positive with `amount` non-empty, and the text after the first `.` must not be
longer than two characters.  Returns the parsed positive value on success. -/
def validateAmount (s : String) : Option ℚ :=
  match jsParseFloat s with
  | none => none
  | some v =>
    if s = "" ∨ v ≤ 0 then none
    else
      match (splitOnChar '.' s.data).get? 1 with
      | some frac => if 2 < frac.length then none else some v
      | none => some v

/-- Conversion `totalCents` of expenses page line 203: `Math.round(numericAmount * 100)`. -/
def totalCentsOf (v : ℚ) : ℤ := jsRound (v * 100)

/-- Equal split of expenses page lines 212-221: `baseCents = Math.floor(totalCents/count)`,
`remainder = totalCents - baseCents*count`, and participant at index `index`
receives `baseCents + (index < remainder ? 1 : 0)` cents, stored as
`shareCents / 100`. -/
def equalSplit (totalCents : ℤ) (participantIds : List String) : List SplitRow :=
  let count : ℤ := (participantIds.length : ℤ)
  let baseCents : ℤ := Int.fdiv totalCents count
  let remainder : ℤ := totalCents - baseCents * count
  participantIds.enum.map fun p =>
    ⟨p.2, (((baseCents + if (p.1 : ℤ) < remainder then 1 else 0) : ℤ) : ℚ) / 100⟩

/-- Mutable state of the custom-split `members.forEach` loop of expenses page
lines 223-244: the running `sumCents`, the accumulated `customSplits` rows and
the current value of the `splitError` react state (last `setSplitError` wins). -/
structure CustomScanState where
  sumCents : ℤ
  splits : List SplitRow
  err : Option String
  deriving DecidableEq, Repr

/-- Body of the `members.forEach` callback, expenses page lines 226-244.
The JavaScript `return` statements on an invalid entry only leave the callback
for that one member: the loop continues, which this step function reproduces. -/
def customStep (shares : List (String × String)) (st : CustomScanState)
    (uid : String) : CustomScanState :=
  let raw := jsTrim ((shares.lookup uid).getD "")
  if raw = "" then st
  else
    match jsParseFloat raw with
    | none => { st with err := some invalidShareMsg }
    | some v =>
      if v < 0 then { st with err := some invalidShareMsg }
      else
        let cents := jsRound (v * 100)
        if 0 < cents then
          { st with
              sumCents := st.sumCents + cents,
              splits := st.splits ++ [⟨uid, (cents : ℚ) / 100⟩] }
        else st

/-- The whole custom-split loop of expenses page lines 223-244. -/
def customScan (members : List String) (shares : List (String × String)) :
    CustomScanState :=
  members.foldl (customStep shares) ⟨0, [], none⟩

/-- Custom-split branch of expenses page lines 222-257: run the loop, then fail
when `sumCents !== totalCents`, then fail when no row was accumulated, else
succeed with the rows (and with whatever `splitError` the loop left set, since
the code proceeds to submit regardless). -/
def customSplit (totalCents : ℤ) (members : List String)
    (shares : List (String × String)) :
    Except String (List SplitRow × Option String) :=
  let st := customScan members shares
  if st.sumCents ≠ totalCents then .error totalMismatchMsg
  else if st.splits = [] then .error emptyCustomMsg
  else .ok (st.splits, st.err)

/-- The three split strategies of the expenses page (`SplitType`, line 18). -/
inductive SplitType where
  | equal_all
  | equal_selected
  | custom
  deriving DecidableEq, Repr

/-- Selection `participantIds` of expenses page lines 188-193. -/
def participantsFor (st : SplitType) (members selected : List String) :
    List String :=
  match st with
  | .equal_all => members
  | .equal_selected => selected
  | .custom => members

/-- Split construction of expenses page lines 188-262: the `equal_selected`
empty-selection guard (line 195), the `count === 0` guard (line 207), the equal
or custom branch, and the final `splits.length === 0` guard (line 259). -/
def buildSplits (st : SplitType) (totalCents : ℤ) (members selected : List String)
    (shares : List (String × String)) :
    Except String (List SplitRow × Option String) :=
  let ps := participantsFor st members selected
  if st = .equal_selected ∧ ps = [] then .error selectMemberMsg
  else
    let r : Except String (List SplitRow × Option String) :=
      match st with
      | .custom => customSplit totalCents members shares
      | _ =>
        if ps.length = 0 then .error noMembersMsg
        else .ok (equalSplit totalCents ps, none)
    match r with
    | .ok (s, e) =>
      if s = [] then .error "Could not compute splits for this expense."
      else .ok (s, e)
    | .error m => .error m

/-- Credit submission of credits page lines 165-184 and 212-223: reject when a
participant is unselected or when payer and recipient coincide, else emit the
two rows `(paidBy, -amount)` and `(paidTo, +amount)` in that order. -/
def creditSplit (amount : ℚ) (paidBy paidTo : String) :
    Except String (List SplitRow) :=
  if paidBy = "" ∨ paidTo = "" then .error selectBothMsg
  else if paidBy = paidTo then .error samePersonMsg
  else .ok [⟨paidBy, -amount⟩, ⟨paidTo, amount⟩]

/-! ## Helper lemmas about the equal split -/

lemma map_enumFrom_fst {α β : Type} (f : ℕ → β) :
    ∀ (l : List α) (n : ℕ),
      (l.enumFrom n).map (fun p => f p.1) = (List.range' n l.length).map f
  | [], _ => rfl
  | _ :: l, n => by
    simp only [List.enumFrom, List.map_cons, List.length_cons, List.range'_succ]
    exact congrArg _ (map_enumFrom_fst f l (n + 1))

lemma map_enum_fst {α β : Type} (f : ℕ → β) (l : List α) :
    l.enum.map (fun p => f p.1) = (List.range l.length).map f := by
  rw [List.range_eq_range', List.enum]
  exact map_enumFrom_fst f l 0

/-- The cent count assigned to index `i` by the equal split of `T` cents over
`N` participants. -/
def equalShareCents (T : ℤ) (N : ℕ) (i : ℕ) : ℤ :=
  T.fdiv N + if (i : ℤ) < T - T.fdiv N * N then 1 else 0

lemma equalSplit_length (T : ℤ) (ps : List String) :
    (equalSplit T ps).length = ps.length := by
  simp [equalSplit]

lemma equalSplit_map_amount (T : ℤ) (ps : List String) :
    (equalSplit T ps).map SplitRow.amount =
      (List.range ps.length).map
        (fun i => ((equalShareCents T ps.length i : ℤ) : ℚ) / 100) := by
  unfold equalSplit
  simp only [List.map_map]
  exact map_enum_fst (fun i => ((equalShareCents T ps.length i : ℤ) : ℚ) / 100) ps

lemma equalSplit_get (T : ℤ) (ps : List String) (i : ℕ)
    (hi : i < (equalSplit T ps).length) :
    (equalSplit T ps).get ⟨i, hi⟩ =
      ⟨ps.getD i "", ((equalShareCents T ps.length i : ℤ) : ℚ) / 100⟩ := by
  have hips : i < ps.length := by
    rwa [equalSplit_length] at hi
  have hen : i < ps.enum.length := by simp [hips]
  unfold equalSplit
  simp only [List.get_eq_getElem, List.getElem_map]
  have h1 : ps.enum[i] = (i, ps[i]) := by
    simp [List.getElem_enumFrom ps 0 i hen]
  rw [h1]
  have h2 : ps.getD i "" = ps[i] := by
    simp [List.getD_eq_getElem?_getD, List.getElem?_eq_getElem hips]
  rw [h2]
  rfl

lemma sum_range_ite_all (b : ℤ) :
    ∀ (N r : ℕ), N ≤ r →
      ((List.range N).map (fun i => b + if i < r then 1 else 0)).sum = N * (b + 1)
  | 0, _, _ => by simp
  | N + 1, r, h => by
    have hN : N ≤ r := Nat.le_of_succ_le h
    have hlt : N < r := h
    rw [List.range_succ, List.map_append, List.sum_append,
      sum_range_ite_all b N r hN]
    simp only [List.map_cons, List.map_nil, List.sum_cons, List.sum_nil,
      if_pos hlt]
    push_cast
    ring

lemma sum_range_base_ite (b : ℤ) :
    ∀ (N r : ℕ), r ≤ N →
      ((List.range N).map (fun i => b + if i < r then 1 else 0)).sum = N * b + r
  | 0, r, h => by
    interval_cases r
    simp
  | N + 1, r, h => by
    rcases Nat.lt_or_ge r (N + 1) with hr | hr
    · have hrN : r ≤ N := Nat.lt_succ_iff.mp hr
      rw [List.range_succ, List.map_append, List.sum_append,
        sum_range_base_ite b N r hrN]
      simp only [List.map_cons, List.map_nil, List.sum_cons, List.sum_nil,
        if_neg (Nat.not_lt.mpr hrN)]
      push_cast
      ring
    · have hrEq : r = N + 1 := Nat.le_antisymm h hr
      subst hrEq
      rw [sum_range_ite_all b (N + 1) (N + 1) le_rfl]
      push_cast
      ring

lemma countP_range_all :
    ∀ (N r : ℕ), N ≤ r →
      (List.range N).countP (fun i => decide (i < r)) = N
  | 0, _, _ => by simp
  | N + 1, r, h => by
    have hN : N ≤ r := Nat.le_of_succ_le h
    have hlt : N < r := h
    rw [List.range_succ, List.countP_append, countP_range_all N r hN]
    simp [List.countP_cons, hlt]

lemma countP_range_lt :
    ∀ (N r : ℕ), r ≤ N →
      (List.range N).countP (fun i => decide (i < r)) = r
  | 0, r, h => by
    interval_cases r
    simp
  | N + 1, r, h => by
    rcases Nat.lt_or_ge r (N + 1) with hr | hr
    · have hrN : r ≤ N := Nat.lt_succ_iff.mp hr
      rw [List.range_succ, List.countP_append, countP_range_lt N r hrN]
      simp [List.countP_cons, Nat.not_lt.mpr hrN]
    · have hrEq : r = N + 1 := Nat.le_antisymm h hr
      subst hrEq
      exact countP_range_all (N + 1) (N + 1) le_rfl

lemma sum_map_intCast (c : ℕ → ℤ) (l : List ℕ) :
    (l.map (fun i => ((c i : ℤ) : ℚ))).sum = (((l.map c).sum : ℤ) : ℚ) := by
  induction l with
  | nil => simp
  | cons a l ih => simp [ih]

/-- For a non-empty participant list, the equal share of index `i` is
`T / N + (1 if i < T % N else 0)` with `/`/`%` the euclidean operations, and
the remainder `T % N` is in `[0, N)`. -/
lemma equalShareCents_eq (T : ℤ) (N : ℕ) (hN : 0 < N) (i : ℕ) :
    equalShareCents T N i = T / N + if (i : ℤ) < T % N then 1 else 0 := by
  have hN0 : (0 : ℤ) ≤ N := by positivity
  have hfd : T.fdiv N = T / N := Int.fdiv_eq_ediv T hN0
  have hmod : T - T / N * N = T % N := by
    have := Int.ediv_add_emod' T N
    omega
  unfold equalShareCents
  rw [hfd, hmod]

lemma emod_toNat_le (T : ℤ) (N : ℕ) (hN : 0 < N) :
    (T % N).toNat ≤ N ∧ ((T % N).toNat : ℤ) = T % N := by
  have hNZ : (0 : ℤ) < N := by exact_mod_cast hN
  have h1 : 0 ≤ T % N := Int.emod_nonneg T (by omega)
  have h2 : T % N < N := Int.emod_lt_of_pos T hNZ
  constructor
  · omega
  · exact Int.toNat_of_nonneg h1

/-- Integer-level sum of the equal-split cents: they add up to `T` exactly. -/
lemma sum_equalShareCents (T : ℤ) (N : ℕ) (hN : 0 < N) :
    ((List.range N).map (equalShareCents T N)).sum = T := by
  obtain ⟨hle, hcast⟩ := emod_toNat_le T N hN
  set r : ℕ := (T % N).toNat with hr
  have hpt : ∀ i ∈ List.range N,
      equalShareCents T N i = T / N + if i < r then 1 else 0 := by
    intro i _
    rw [equalShareCents_eq T N hN i]
    have hiff : ((i : ℤ) < T % N) ↔ (i < r) := by omega
    simp only [hiff]
  rw [List.map_congr_left hpt, sum_range_base_ite (T / N) N r hle, hcast]
  exact Int.ediv_add_emod T N

lemma equalSplit_ne_nil (T : ℤ) (ps : List String) (hps : ps ≠ []) :
    equalSplit T ps ≠ [] := by
  rw [← List.length_pos, equalSplit_length]
  exact List.length_pos.mpr hps

lemma equalSplit_map_cents_eq_range (T : ℤ) (ps : List String) :
    (equalSplit T ps).map (fun l => l.amount * 100) =
      (List.range ps.length).map
        (fun i => ((equalShareCents T ps.length i : ℤ) : ℚ)) := by
  unfold equalSplit
  simp only [List.map_map]
  have h := map_enum_fst
    (fun i => (((equalShareCents T ps.length i : ℤ) : ℚ) / 100) * 100) ps
  refine Eq.trans h (List.map_congr_left ?_)
  intro i _
  exact div_mul_cancel₀ _ (by norm_num)

lemma equalSplit_sum_cents (T : ℤ) (ps : List String) (hps : ps ≠ []) :
    ((equalSplit T ps).map (fun l => l.amount * 100)).sum = (T : ℚ) := by
  have hN : 0 < ps.length := List.length_pos.mpr hps
  rw [equalSplit_map_cents_eq_range, sum_map_intCast,
    sum_equalShareCents T ps.length hN]

/-! ## Concrete evaluations of the JavaScript primitives

The kernel cannot reduce rational arithmetic (its normalisation runs through
`Nat.gcd`), so each concrete evaluation first exposes the semi-evaluated
rational expression by `rfl` (all string and list computation reduces
definitionally) and then finishes with `norm_num`. -/

lemma jsParseFloat_1e3 : jsParseFloat "1e-3" = some (1 / 1000) := by
  have h : jsParseFloat "1e-3" =
      some (1 * (((1 : ℕ) : ℚ) + ((0 : ℕ) : ℚ) / 10 ^ 0) *
        (10 : ℚ) ^ (-((3 : ℕ) : ℤ))) := rfl
  rw [h]
  norm_num

lemma totalCents_1e3 : totalCentsOf (1 / 1000) = 0 := by
  norm_num [totalCentsOf, jsRound]

lemma validateAmount_1e3 : validateAmount "1e-3" = some (1 / 1000) := by
  unfold validateAmount
  rw [jsParseFloat_1e3]
  have hsplit : (splitOnChar '.' ("1e-3").data).get? 1 = none := rfl
  rw [hsplit]
  have hcond : ¬(("1e-3" : String) = "" ∨ (1 : ℚ) / 1000 ≤ 0) := by
    push_neg
    exact ⟨by decide, by norm_num⟩
  show (if ("1e-3" : String) = "" ∨ (1 : ℚ) / 1000 ≤ 0 then none
    else some ((1 : ℚ) / 1000)) = some (1 / 1000)
  rw [if_neg hcond]

/-! ## Claim theorems: equal split -/

/-- C1: for every positive minor-unit total `T` and every non-empty participant
list, the `EqualAll`/`EqualSelected` branches of the allocator succeed and the
produced split lines' minor-unit amounts sum to exactly `T` — no rounding
drift. -/
theorem C1_equal_split_sum_exact (st : SplitType) (T : ℤ)
    (members selected : List String) (shares : List (String × String))
    (hst : st = SplitType.equal_all ∨ st = SplitType.equal_selected)
    (_hT : 0 < T) (hps : participantsFor st members selected ≠ []) :
    buildSplits st T members selected shares =
      Except.ok (equalSplit T (participantsFor st members selected), none) ∧
    ((equalSplit T (participantsFor st members selected)).map
        (fun l => l.amount * 100)).sum = (T : ℚ) := by
  refine ⟨?_, equalSplit_sum_cents T _ hps⟩
  have hlen : (participantsFor st members selected).length ≠ 0 := by
    simpa [List.length_pos] using List.length_pos.mpr hps
  rcases hst with h | h <;> subst h <;>
    simp [buildSplits, hps, hlen, equalSplit_ne_nil T _ hps]

/-- Witness for C1 at `T = 1000` over three participants. -/
theorem C1_witness :
    buildSplits SplitType.equal_all 1000 ["A", "B", "C"] [] [] =
      Except.ok (equalSplit 1000 ["A", "B", "C"], none) ∧
    ((equalSplit 1000 ["A", "B", "C"]).map (fun l => l.amount * 100)).sum =
      (1000 : ℚ) :=
  C1_equal_split_sum_exact SplitType.equal_all 1000 ["A", "B", "C"] [] []
    (Or.inl rfl) (by decide) (by decide)

/-- C2: for positive `T` and `N ≥ 1` participants the equal split yields
exactly `N` lines; the line at index `i` belongs to the `i`-th supplied
participant and carries `T / N` cents plus one extra cent exactly when
`i < T % N`; hence exactly `T % N` lines carry the larger amount
`T / N + 1`, and they are the first `T % N` participants in supplied order. -/
theorem C2_equal_split_shape (T : ℤ) (ps : List String)
    (_hT : 0 < T) (hps : ps ≠ []) :
    (equalSplit T ps).length = ps.length ∧
    (∀ i, ∀ hi : i < (equalSplit T ps).length,
      (equalSplit T ps).get ⟨i, hi⟩ =
        ⟨ps.getD i "",
          (((T / ps.length + if (i : ℤ) < T % ps.length then 1 else 0) : ℤ) : ℚ)
            / 100⟩) ∧
    (equalSplit T ps).countP
        (fun l => decide (l.amount * 100 = ((T / ps.length + 1 : ℤ) : ℚ))) =
      (T % ps.length).toNat := by
  have hN : 0 < ps.length := List.length_pos.mpr hps
  obtain ⟨hle, hcast⟩ := emod_toNat_le T ps.length hN
  refine ⟨equalSplit_length T ps, ?_, ?_⟩
  · intro i hi
    rw [equalSplit_get T ps i hi, equalShareCents_eq T ps.length hN i]
  · have h1 : (equalSplit T ps).countP
        (fun l => decide (l.amount * 100 = ((T / ps.length + 1 : ℤ) : ℚ))) =
        ((equalSplit T ps).map (fun l => l.amount * 100)).countP
          (fun q => decide (q = ((T / ps.length + 1 : ℤ) : ℚ))) :=
      (List.countP_map (fun q : ℚ => decide (q = ((T / ps.length + 1 : ℤ) : ℚ)))
        (fun l : SplitRow => l.amount * 100) (equalSplit T ps)).symm
    rw [h1, equalSplit_map_cents_eq_range, List.countP_map]
    have h2 : ∀ i ∈ List.range ps.length,
        ((fun q => decide (q = ((T / ps.length + 1 : ℤ) : ℚ)))
            ((equalShareCents T ps.length i : ℤ) : ℚ) : Prop) ↔
          (decide (i < (T % ps.length).toNat) : Prop) := by
      intro i _
      simp only [decide_eq_true_eq]
      rw [equalShareCents_eq T ps.length hN i]
      have hcastinj : ((((T / ps.length +
          if (i : ℤ) < T % ps.length then 1 else 0) : ℤ) : ℚ) =
            ((T / ps.length + 1 : ℤ) : ℚ)) ↔
          ((T / ps.length + if (i : ℤ) < T % ps.length then 1 else 0) =
            T / ps.length + 1) := Int.cast_inj
      rw [hcastinj]
      constructor
      · intro h
        by_contra hlt
        rw [if_neg] at h
        · omega
        · omega
      · intro h
        rw [if_pos]
        omega
    exact (List.countP_congr h2).trans
      (countP_range_lt ps.length (T % ps.length).toNat hle)

/-- Witness for C2: the concrete scenario `T = 1000`, participants
`[A, B, C]`, shares `[334, 333, 333]` cents with `A` receiving the extra
cent. -/
theorem C2_witness :
    ((equalSplit 1000 ["A", "B", "C"]).length = 3 ∧
      equalSplit 1000 ["A", "B", "C"] =
        [⟨"A", 334 / 100⟩, ⟨"B", 333 / 100⟩, ⟨"C", 333 / 100⟩]) ∧
    (equalSplit 1000 ["A", "B", "C"]).countP
        (fun l => decide (l.amount * 100 =
          (((1000 : ℤ) / (3 : ℕ) + 1 : ℤ) : ℚ))) =
      ((1000 : ℤ) % (3 : ℕ)).toNat := by
  have h := C2_equal_split_shape 1000 ["A", "B", "C"] (by decide) (by decide)
  refine ⟨⟨h.1, ?_⟩, h.2.2⟩
  have he : equalSplit 1000 ["A", "B", "C"] =
      [⟨"A", ((334 : ℤ) : ℚ) / 100⟩, ⟨"B", ((333 : ℤ) : ℚ) / 100⟩,
        ⟨"C", ((333 : ℤ) : ℚ) / 100⟩] := rfl
  rw [he]
  norm_num

/-- C8: permuting the participant list while keeping the positive total `T`
fixed leaves the multiset of produced minor-unit amounts unchanged (only which
participant receives each extra cent changes). -/
theorem C8_equal_split_perm_invariant (T : ℤ) (ps qs : List String)
    (_hT : 0 < T) (hperm : ps.Perm qs) :
    (((equalSplit T ps).map (fun l => l.amount * 100) : List ℚ) : Multiset ℚ) =
      (((equalSplit T qs).map (fun l => l.amount * 100) : List ℚ) : Multiset ℚ) := by
  have hlen : ps.length = qs.length := hperm.length_eq
  have h : (equalSplit T ps).map (fun l => l.amount * 100) =
      (equalSplit T qs).map (fun l => l.amount * 100) := by
    rw [equalSplit_map_cents_eq_range, equalSplit_map_cents_eq_range, hlen]
  rw [h]

/-- Witness for C8 at `T = 1000` and the swap of a two-element list. -/
theorem C8_witness :
    (((equalSplit 1000 ["A", "B"]).map (fun l => l.amount * 100) :
        List ℚ) : Multiset ℚ) =
      (((equalSplit 1000 ["B", "A"]).map (fun l => l.amount * 100) :
        List ℚ) : Multiset ℚ) :=
  C8_equal_split_perm_invariant 1000 ["A", "B"] ["B", "A"] (by decide)
    (by decide)

/-- C10: the amount string `"1e-3"` passes the submission validation (parsed
value `1/1000` is positive and there is no `.`-separated fractional part), its
minor-unit conversion `Math.round(value * 100)` is `0`, and the equal split
over any `N ≥ 1` participants then proceeds, emitting `N` lines that all carry
amount `0` instead of the total being rejected as non-positive. -/
theorem C10_zero_cent_amount_accepted (ps : List String) (hps : ps ≠ []) :
    validateAmount "1e-3" = some (1 / 1000) ∧
    totalCentsOf (1 / 1000) = 0 ∧
    (equalSplit 0 ps).length = ps.length ∧
    equalSplit 0 ps ≠ [] ∧
    ∀ l ∈ equalSplit 0 ps, l.amount = 0 := by
  refine ⟨validateAmount_1e3, totalCents_1e3, equalSplit_length 0 ps,
    equalSplit_ne_nil 0 ps hps, ?_⟩
  intro l hl
  obtain ⟨⟨i, hi⟩, rfl⟩ := List.mem_iff_get.mp hl
  rw [equalSplit_get 0 ps i hi]
  have h0 : equalShareCents 0 ps.length i = 0 := by
    simp [equalShareCents, Int.zero_fdiv]
  simp [h0]

/-- Witness for C10 with a single participant. -/
theorem C10_witness :
    validateAmount "1e-3" = some (1 / 1000) ∧
    totalCentsOf (1 / 1000) = 0 ∧
    (equalSplit 0 ["A"]).length = (["A"] : List String).length ∧
    equalSplit 0 ["A"] ≠ [] ∧
    ∀ l ∈ equalSplit 0 ["A"], l.amount = 0 :=
  C10_zero_cent_amount_accepted ["A"] (by decide)

/-! ## Helper lemmas about the custom-split loop -/

lemma customStep_blank (shares : List (String × String)) (st : CustomScanState)
    (uid : String) (hraw : jsTrim ((shares.lookup uid).getD "") = "") :
    customStep shares st uid = st := by
  unfold customStep
  rw [if_pos hraw]

lemma customStep_invalid (shares : List (String × String)) (st : CustomScanState)
    (uid : String) (hraw : jsTrim ((shares.lookup uid).getD "") ≠ "")
    (hp : jsParseFloat (jsTrim ((shares.lookup uid).getD "")) = none) :
    customStep shares st uid = { st with err := some invalidShareMsg } := by
  unfold customStep
  rw [if_neg hraw, hp]

lemma customStep_of_parse (shares : List (String × String)) (st : CustomScanState)
    (uid : String) (v : ℚ) (c : ℤ)
    (hraw : jsTrim ((shares.lookup uid).getD "") ≠ "")
    (hp : jsParseFloat (jsTrim ((shares.lookup uid).getD "")) = some v)
    (hv : ¬v < 0) (hc : jsRound (v * 100) = c) (hcpos : 0 < c) :
    customStep shares st uid =
      { st with sumCents := st.sumCents + c,
                splits := st.splits ++ [⟨uid, (c : ℚ) / 100⟩] } := by
  unfold customStep
  rw [if_neg hraw, hp]
  show (if v < 0 then { st with err := some invalidShareMsg }
    else
      if 0 < jsRound (v * 100) then
        { st with sumCents := st.sumCents + jsRound (v * 100),
                  splits := st.splits ++
                    [⟨uid, ((jsRound (v * 100) : ℤ) : ℚ) / 100⟩] }
      else st) = _
  rw [if_neg hv, hc, if_pos hcpos]

lemma customStep_of_parse_zero (shares : List (String × String))
    (st : CustomScanState) (uid : String) (v : ℚ)
    (hraw : jsTrim ((shares.lookup uid).getD "") ≠ "")
    (hp : jsParseFloat (jsTrim ((shares.lookup uid).getD "")) = some v)
    (hv : ¬v < 0) (hc : ¬0 < jsRound (v * 100)) :
    customStep shares st uid = st := by
  unfold customStep
  rw [if_neg hraw, hp]
  show (if v < 0 then { st with err := some invalidShareMsg }
    else
      if 0 < jsRound (v * 100) then
        { st with sumCents := st.sumCents + jsRound (v * 100),
                  splits := st.splits ++
                    [⟨uid, ((jsRound (v * 100) : ℤ) : ℚ) / 100⟩] }
      else st) = _
  rw [if_neg hv, if_neg hc]

lemma customStep_negative (shares : List (String × String))
    (st : CustomScanState) (uid : String) (v : ℚ)
    (hraw : jsTrim ((shares.lookup uid).getD "") ≠ "")
    (hp : jsParseFloat (jsTrim ((shares.lookup uid).getD "")) = some v)
    (hv : v < 0) :
    customStep shares st uid = { st with err := some invalidShareMsg } := by
  unfold customStep
  rw [if_neg hraw, hp]
  show (if v < 0 then { st with err := some invalidShareMsg }
    else
      if 0 < jsRound (v * 100) then
        { st with sumCents := st.sumCents + jsRound (v * 100),
                  splits := st.splits ++
                    [⟨uid, ((jsRound (v * 100) : ℤ) : ℚ) / 100⟩] }
      else st) = _
  rw [if_pos hv]

lemma customStep_cases (shares : List (String × String)) (st : CustomScanState)
    (uid : String) :
    customStep shares st uid = st ∨
    customStep shares st uid = { st with err := some invalidShareMsg } ∨
    ∃ c : ℤ, 0 < c ∧ customStep shares st uid =
      { st with sumCents := st.sumCents + c,
                splits := st.splits ++ [⟨uid, (c : ℚ) / 100⟩] } := by
  by_cases h1 : jsTrim ((shares.lookup uid).getD "") = ""
  · exact Or.inl (customStep_blank shares st uid h1)
  · rcases hp : jsParseFloat (jsTrim ((shares.lookup uid).getD "")) with _ | v
    · exact Or.inr (Or.inl (customStep_invalid shares st uid h1 hp))
    · by_cases hv : v < 0
      · exact Or.inr (Or.inl (customStep_negative shares st uid v h1 hp hv))
      · by_cases hc : 0 < jsRound (v * 100)
        · exact Or.inr (Or.inr ⟨jsRound (v * 100), hc,
            customStep_of_parse shares st uid v _ h1 hp hv rfl hc⟩)
        · exact Or.inl (customStep_of_parse_zero shares st uid v h1 hp hv hc)

lemma foldl_customStep_splits_nil (shares : List (String × String)) :
    ∀ (ms : List String) (st : CustomScanState),
      (ms.foldl (customStep shares) st).splits = [] →
      (ms.foldl (customStep shares) st).sumCents = st.sumCents ∧ st.splits = []
  | [], _ => fun h => ⟨rfl, h⟩
  | uid :: ms, st => fun h => by
    rw [List.foldl_cons] at h ⊢
    rcases customStep_cases shares st uid with hc | hc | ⟨c, _, hc⟩
    · rw [hc] at h ⊢
      exact foldl_customStep_splits_nil shares ms st h
    · rw [hc] at h ⊢
      obtain ⟨hsum, hsp⟩ := foldl_customStep_splits_nil shares ms _ h
      exact ⟨hsum, hsp⟩
    · rw [hc] at h
      obtain ⟨-, hsp⟩ := foldl_customStep_splits_nil shares ms _ h
      exact absurd hsp (by simp)

lemma customScan_splits_nil (members : List String)
    (shares : List (String × String))
    (h : (customScan members shares).splits = []) :
    (customScan members shares).sumCents = 0 :=
  (foldl_customStep_splits_nil shares members ⟨0, [], none⟩ h).1

/-! ## More concrete parse evaluations -/

lemma jsParseFloat_10 : jsParseFloat "10" = some 10 := by
  have h : jsParseFloat "10" =
      some (1 * (((10 : ℕ) : ℚ) + ((0 : ℕ) : ℚ) / 10 ^ 0) *
        (10 : ℚ) ^ ((0 : ℕ) : ℤ)) := rfl
  rw [h]
  norm_num

lemma jsParseFloat_999 : jsParseFloat "9.99" = some (999 / 100) := by
  have h : jsParseFloat "9.99" =
      some (1 * (((9 : ℕ) : ℚ) + ((99 : ℕ) : ℚ) / 10 ^ 2) *
        (10 : ℚ) ^ ((0 : ℕ) : ℤ)) := rfl
  rw [h]
  norm_num

lemma jsParseFloat_334 : jsParseFloat "3.34" = some (334 / 100) := by
  have h : jsParseFloat "3.34" =
      some (1 * (((3 : ℕ) : ℚ) + ((34 : ℕ) : ℚ) / 10 ^ 2) *
        (10 : ℚ) ^ ((0 : ℕ) : ℤ)) := rfl
  rw [h]
  norm_num

lemma jsParseFloat_333 : jsParseFloat "3.33" = some (333 / 100) := by
  have h : jsParseFloat "3.33" =
      some (1 * (((3 : ℕ) : ℚ) + ((33 : ℕ) : ℚ) / 10 ^ 2) *
        (10 : ℚ) ^ ((0 : ℕ) : ℤ)) := rfl
  rw [h]
  norm_num

/-! ## Claim theorems: custom split and credits -/

/-- C3: the custom strategy fails with the total-mismatch error exactly when
the accepted shares' cent sum (the loop's `sumCents`) differs from the total's
minor-unit value `T`; on an exact integer match it never fails with that
error. -/
theorem C3_total_mismatch_iff (T : ℤ) (members : List String)
    (shares : List (String × String)) :
    ((customScan members shares).sumCents ≠ T →
      customSplit T members shares = Except.error totalMismatchMsg) ∧
    ((customScan members shares).sumCents = T →
      customSplit T members shares ≠ Except.error totalMismatchMsg) := by
  constructor
  · intro h
    unfold customSplit
    rw [if_pos h]
  · intro h
    unfold customSplit
    have hcond : ¬((customScan members shares).sumCents ≠ T) := fun hne => hne h
    rw [if_neg hcond]
    by_cases hsp : (customScan members shares).splits = []
    · rw [if_pos hsp]
      intro hx
      exact absurd (Except.error.inj hx) (by decide)
    · rw [if_neg hsp]
      intro hx
      exact Except.noConfusion hx

/-- C4 (code bug): an unparseable custom entry sets the invalid-share error
message but the `forEach` callback's `return` does not abort the submission:
with entries `alice ↦ "abc"`, `bob ↦ "10"` against a total of 1000 cents the
operation still succeeds, emitting bob's split line, with the invalid-share
message merely left behind in the react state. -/
theorem C4_invalid_share_not_rejected :
    customSplit 1000 ["alice", "bob"] [("alice", "abc"), ("bob", "10")] =
      Except.ok ([⟨"bob", 10⟩], some invalidShareMsg) := by
  have h1 : customStep [("alice", "abc"), ("bob", "10")] ⟨0, [], none⟩
      "alice" = ⟨0, [], some invalidShareMsg⟩ :=
    customStep_invalid _ _ _ (by decide) rfl
  have h2 : customStep [("alice", "abc"), ("bob", "10")]
      ⟨0, [], some invalidShareMsg⟩ "bob" =
      ⟨0 + 1000, [] ++ [⟨"bob", ((1000 : ℤ) : ℚ) / 100⟩],
        some invalidShareMsg⟩ :=
    customStep_of_parse _ _ _ 10 1000 (by decide) jsParseFloat_10
      (by norm_num) (by norm_num [jsRound]) (by decide)
  have hscan : customScan ["alice", "bob"] [("alice", "abc"), ("bob", "10")] =
      ⟨1000, [⟨"bob", ((1000 : ℤ) : ℚ) / 100⟩], some invalidShareMsg⟩ := by
    unfold customScan
    rw [List.foldl_cons, h1, List.foldl_cons, h2, List.foldl_nil]
    norm_num
  unfold customSplit
  rw [hscan]
  norm_num

/-- C5 counterexample: with a positive total of 1000 cents and every entry
blank, no participant has a positive share, yet the operation fails with the
total-mismatch message, not the empty-custom-set message. -/
theorem C5_counterexample :
    (customScan ["alice"] []).splits = [] ∧
    customSplit 1000 ["alice"] [] = Except.error totalMismatchMsg ∧
    totalMismatchMsg ≠ emptyCustomMsg :=
  ⟨rfl, rfl, by decide⟩

/-- C5 (amended): when no participant ends up with a positive share the
operation always fails, but the empty-custom-set error surfaces only when the
(zero) cent sum equals the total, i.e. when `T = 0`; for any other total the
mismatch check fires first. -/
theorem C5_empty_custom_set (T : ℤ) (members : List String)
    (shares : List (String × String))
    (h : (customScan members shares).splits = []) :
    customSplit T members shares =
      Except.error (if T = 0 then emptyCustomMsg else totalMismatchMsg) := by
  have hsum : (customScan members shares).sumCents = 0 :=
    customScan_splits_nil members shares h
  unfold customSplit
  by_cases hT : T = 0
  · subst hT
    have h1 : ¬((customScan members shares).sumCents ≠ (0 : ℤ)) := by
      rw [hsum]
      exact not_not_intro rfl
    rw [if_neg h1, if_pos h, if_pos rfl]
  · have h1 : (customScan members shares).sumCents ≠ T := by
      rw [hsum]
      exact fun hx => hT hx.symm
    rw [if_pos h1, if_neg hT]

/-- Witness for the amended C5: all-blank entries fail with the mismatch
message for `T = 1000` and with the empty-custom-set message for `T = 0`. -/
theorem C5_amended_witness :
    customSplit 1000 ["alice"] [("alice", "  ")] =
      Except.error totalMismatchMsg ∧
    customSplit 0 ["bob"] [] = Except.error emptyCustomMsg := by
  constructor
  · have h := C5_empty_custom_set 1000 ["alice"] [("alice", "  ")] rfl
    simpa using h
  · have h := C5_empty_custom_set 0 ["bob"] [] rfl
    simpa using h

/-- C6: a credit of amount `A` between distinct, selected payer and recipient
yields exactly the two lines `(payer, -A)` and `(recipient, +A)` in that
order, and swapping payer and recipient negates both lines (the original payer
then receives `+A`). -/
theorem C6_credit_two_lines (A : ℚ) (payer recipient : String)
    (hp : payer ≠ "") (hr : recipient ≠ "") (hne : payer ≠ recipient) :
    creditSplit A payer recipient = Except.ok [⟨payer, -A⟩, ⟨recipient, A⟩] ∧
    creditSplit A recipient payer = Except.ok [⟨recipient, -A⟩, ⟨payer, A⟩] := by
  constructor
  · unfold creditSplit
    rw [if_neg (by simp [hp, hr]), if_neg hne]
  · unfold creditSplit
    rw [if_neg (by simp [hp, hr]), if_neg (Ne.symm hne)]

/-- Witness for C6 with `A = 5` between participants `a` and `b`. -/
theorem C6_witness :
    creditSplit 5 "a" "b" = Except.ok [⟨"a", -5⟩, ⟨"b", 5⟩] ∧
    creditSplit 5 "b" "a" = Except.ok [⟨"b", -5⟩, ⟨"a", 5⟩] :=
  C6_credit_two_lines 5 "a" "b" (by decide) (by decide) (by decide)

/-- C7: a credit whose payer and recipient are the same selected participant
fails with the same-participant error and produces no split lines. -/
theorem C7_same_participant (A : ℚ) (p : String) (hp : p ≠ "") :
    creditSplit A p p = Except.error samePersonMsg := by
  unfold creditSplit
  rw [if_neg (by simp [hp]), if_pos rfl]

/-- Witness for C7 at a concrete participant. -/
theorem C7_witness : creditSplit 7 "member" "member" =
    Except.error samePersonMsg :=
  C7_same_participant 7 "member" (by decide)

/-! ## Full characterisation of the custom loop on all-valid entries -/

lemma jsRound_cent (c : ℤ) : jsRound ((c : ℚ) / 100 * 100) = c := by
  rw [div_mul_cancel₀ _ (by norm_num : (100 : ℚ) ≠ 0)]
  unfold jsRound
  rw [add_comm, Int.floor_add_int]
  norm_num

/-- The rows the custom loop accumulates when the entry of the `i`-th member
parses to `c i` cents: one row per strictly positive cent count, in member
order. -/
def expectedLines : List String → (ℕ → ℤ) → List SplitRow
  | [], _ => []
  | uid :: rest, c =>
    (if 0 < c 0 then [SplitRow.mk uid ((c 0 : ℚ) / 100)] else []) ++
      expectedLines rest (fun i => c (i + 1))

lemma range_map_sum_shift (c : ℕ → ℤ) (n : ℕ) :
    ((List.range (n + 1)).map c).sum =
      c 0 + ((List.range n).map (fun i => c (i + 1))).sum := by
  rw [List.range_succ_eq_map]
  simp only [List.map_cons, List.sum_cons, List.map_map]
  rfl

lemma expectedLines_nil_sum :
    ∀ (ps : List String) (c : ℕ → ℤ), (∀ i, i < ps.length → 0 ≤ c i) →
      expectedLines ps c = [] → ((List.range ps.length).map c).sum = 0
  | [], _, _ => fun _ => rfl
  | _ :: rest, c, h => fun hnil => by
    obtain ⟨hif, hrest⟩ := List.append_eq_nil.mp hnil
    have h0 : ¬0 < c 0 := by
      intro hpos
      rw [if_pos hpos] at hif
      exact List.noConfusion hif
    have hc0 : c 0 = 0 := le_antisymm (not_lt.mp h0) (h 0 (by simp))
    have ih := expectedLines_nil_sum rest (fun i => c (i + 1))
      (fun i hi => h (i + 1) (Nat.succ_lt_succ hi)) hrest
    rw [List.length_cons, range_map_sum_shift, hc0, ih]
    omega

lemma customScan_go (shares : List (String × String)) :
    ∀ (ps : List String) (c : ℕ → ℤ) (st : CustomScanState),
      (∀ i, ∀ hi : i < ps.length,
        jsTrim ((shares.lookup (ps.get ⟨i, hi⟩)).getD "") ≠ "" ∧
        jsParseFloat (jsTrim ((shares.lookup (ps.get ⟨i, hi⟩)).getD "")) =
          some ((c i : ℚ) / 100) ∧ 0 ≤ c i) →
      ps.foldl (customStep shares) st =
        ⟨st.sumCents + ((List.range ps.length).map c).sum,
         st.splits ++ expectedLines ps c, st.err⟩
  | [], c, st => fun _ => by simp [expectedLines]
  | uid :: rest, c, st => fun h => by
    obtain ⟨hraw, hp, hc0⟩ := h 0 (Nat.succ_pos _)
    have hvnn : (0 : ℚ) ≤ (c 0 : ℚ) / 100 := by
      have : (0 : ℚ) ≤ (c 0 : ℚ) := by exact_mod_cast hc0
      positivity
    have hrest := fun i hi => h (i + 1) (Nat.succ_lt_succ hi)
    rw [List.foldl_cons]
    by_cases hpos : 0 < c 0
    · have hstep := customStep_of_parse shares st uid ((c 0 : ℚ) / 100) (c 0)
        hraw hp (not_lt.mpr hvnn) (jsRound_cent (c 0)) hpos
      rw [hstep, customScan_go shares rest (fun i => c (i + 1)) _ hrest]
      simp only [List.length_cons, range_map_sum_shift c rest.length,
        expectedLines, if_pos hpos]
      rw [add_assoc, List.append_assoc]
    · have hzero : c 0 = 0 := le_antisymm (not_lt.mp hpos) hc0
      have hround : ¬0 < jsRound ((c 0 : ℚ) / 100 * 100) := by
        rw [jsRound_cent]
        omega
      have hstep := customStep_of_parse_zero shares st uid ((c 0 : ℚ) / 100)
        hraw hp (not_lt.mpr hvnn) hround
      rw [hstep, customScan_go shares rest (fun i => c (i + 1)) st hrest]
      simp only [List.length_cons, range_map_sum_shift c rest.length,
        expectedLines, if_neg hpos, hzero]
      simp

lemma equalShareCents_nonneg (T : ℤ) (N : ℕ) (hT : 0 ≤ T) (hN : 0 < N)
    (i : ℕ) : 0 ≤ equalShareCents T N i := by
  rw [equalShareCents_eq T N hN i]
  have hdiv : 0 ≤ T / (N : ℤ) := Int.ediv_nonneg hT (by positivity)
  split <;> omega

/-- C9: feeding a valid equal split's per-participant amounts back as the
custom shares for the same total makes the custom allocation accept them: the
cent sums match exactly and no error is raised. -/
theorem C9_round_trip (T : ℤ) (ps : List String)
    (shares : List (String × String)) (hT : 0 < T) (hps : ps ≠ [])
    (h : ∀ i, ∀ hi : i < ps.length,
      jsTrim ((shares.lookup (ps.get ⟨i, hi⟩)).getD "") ≠ "" ∧
      jsParseFloat (jsTrim ((shares.lookup (ps.get ⟨i, hi⟩)).getD "")) =
        some (((equalSplit T ps).get
          ⟨i, (equalSplit_length T ps).symm ▸ hi⟩).amount)) :
    ∃ lines, customSplit T ps shares = Except.ok (lines, none) := by
  have hN : 0 < ps.length := List.length_pos.mpr hps
  have hnonneg : ∀ i, i < ps.length → 0 ≤ equalShareCents T ps.length i :=
    fun i _ => equalShareCents_nonneg T ps.length (le_of_lt hT) hN i
  have h' : ∀ i, ∀ hi : i < ps.length,
      jsTrim ((shares.lookup (ps.get ⟨i, hi⟩)).getD "") ≠ "" ∧
      jsParseFloat (jsTrim ((shares.lookup (ps.get ⟨i, hi⟩)).getD "")) =
        some ((equalShareCents T ps.length i : ℚ) / 100) ∧
      0 ≤ equalShareCents T ps.length i := by
    intro i hi
    obtain ⟨h1, h2⟩ := h i hi
    refine ⟨h1, ?_, hnonneg i hi⟩
    rw [h2, equalSplit_get T ps i ((equalSplit_length T ps).symm ▸ hi)]
  have hscan : customScan ps shares =
      ⟨0 + ((List.range ps.length).map (equalShareCents T ps.length)).sum,
       [] ++ expectedLines ps (equalShareCents T ps.length), none⟩ :=
    customScan_go shares ps (equalShareCents T ps.length) ⟨0, [], none⟩ h'
  have hscan2 : customScan ps shares =
      ⟨T, expectedLines ps (equalShareCents T ps.length), none⟩ := by
    rw [hscan, sum_equalShareCents T ps.length hN]
    simp
  have hnil : expectedLines ps (equalShareCents T ps.length) ≠ [] := by
    intro hx
    have h0 := expectedLines_nil_sum ps (equalShareCents T ps.length)
      hnonneg hx
    rw [sum_equalShareCents T ps.length hN] at h0
    omega
  refine ⟨expectedLines ps (equalShareCents T ps.length), ?_⟩
  unfold customSplit
  rw [hscan2]
  rw [if_neg (show ¬((⟨T, expectedLines ps (equalShareCents T ps.length),
    none⟩ : CustomScanState).sumCents ≠ T) from fun hx => hx rfl)]
  rw [if_neg (show ¬((⟨T, expectedLines ps (equalShareCents T ps.length),
    none⟩ : CustomScanState).splits = []) from hnil)]

/-- Witness for C9: the equal split of 1000 cents over `[A, B, C]` gives
`3.34 / 3.33 / 3.33`, and those strings fed back as custom shares are
accepted. -/
theorem C9_witness :
    ∃ lines, customSplit 1000 ["A", "B", "C"]
      [("A", "3.34"), ("B", "3.33"), ("C", "3.33")] =
      Except.ok (lines, none) := by
  apply C9_round_trip 1000 ["A", "B", "C"]
    [("A", "3.34"), ("B", "3.33"), ("C", "3.33")] (by decide) (by decide)
  intro i hi
  have hi3 : i < 3 := hi
  interval_cases i
  · refine ⟨?_, ?_⟩
    · show jsTrim (([("A", "3.34"), ("B", "3.33"), ("C", "3.33")].lookup
        "A").getD "") ≠ ""
      decide
    · show jsParseFloat "3.34" = some (((334 : ℤ) : ℚ) / 100)
      rw [jsParseFloat_334]
      norm_num
  · refine ⟨?_, ?_⟩
    · show jsTrim (([("A", "3.34"), ("B", "3.33"), ("C", "3.33")].lookup
        "B").getD "") ≠ ""
      decide
    · show jsParseFloat "3.33" = some (((333 : ℤ) : ℚ) / 100)
      rw [jsParseFloat_333]
      norm_num
  · refine ⟨?_, ?_⟩
    · show jsTrim (([("A", "3.34"), ("B", "3.33"), ("C", "3.33")].lookup
        "C").getD "") ≠ ""
      decide
    · show jsParseFloat "3.33" = some (((333 : ℤ) : ℚ) / 100)
      rw [jsParseFloat_333]
      norm_num

/-- Witness for C3: a share of `9.99` (999 cents) is rejected with the
mismatch message against a 1000-cent total and not rejected with it against a
999-cent total. -/
theorem C3_witness :
    customSplit 1000 ["A"] [("A", "9.99")] = Except.error totalMismatchMsg ∧
    customSplit 999 ["A"] [("A", "9.99")] ≠ Except.error totalMismatchMsg := by
  have hstep : customStep [("A", "9.99")] ⟨0, [], none⟩ "A" =
      ⟨0 + 999, [] ++ [⟨"A", ((999 : ℤ) : ℚ) / 100⟩], none⟩ :=
    customStep_of_parse _ _ _ (999 / 100) 999 (by decide) jsParseFloat_999
      (by norm_num) (by norm_num [jsRound]) (by decide)
  have hscan : customScan ["A"] [("A", "9.99")] =
      ⟨999, [⟨"A", ((999 : ℤ) : ℚ) / 100⟩], none⟩ := by
    unfold customScan
    rw [List.foldl_cons, hstep, List.foldl_nil]
    norm_num
  constructor
  · exact (C3_total_mismatch_iff 1000 ["A"] [("A", "9.99")]).1
      (by rw [hscan]; decide)
  · exact (C3_total_mismatch_iff 999 ["A"] [("A", "9.99")]).2
      (by rw [hscan])

end Splitwise
